import Mathlib

/-!
Verification development for the chunked text-to-speech playback pipeline and
the voice conversation loop of the document-intelligence app.  The definitions
shallowly embed the TypeScript source (`App.tsx`, `components/VoiceAgent.tsx`,
`services/geminiService.ts` and the PCM playback helper): strings are modelled
as `List Char`, byte buffers as `List Nat` (each entry a byte value), audio
samples as `ℚ`, and the single-threaded event loop as an explicit step
function over a system state, where every segment of code between two
`await` suspension points runs atomically.
-/

namespace FCS

/-- Characters removed by JavaScript `String.prototype.trim` (the ASCII part:
space, tab, line feed, carriage return, vertical tab, form feed). -/
def isWS (c : Char) : Bool :=
  c == ' ' || c == Char.ofNat 9 || c == Char.ofNat 10 || c == Char.ofNat 13 ||
  c == Char.ofNat 11 || c == Char.ofNat 12

/-- JavaScript `String.prototype.trim`: drop leading and trailing whitespace. -/
def trimJS (l : List Char) : List Char :=
  ((l.dropWhile isWS).reverse.dropWhile isWS).reverse

/-- The opening marker of the hidden export block (`App.tsx` line 209). -/
def exportMarker : List Char := ":::EXPORT_DATA=".toList

/-- Three colons, the closing delimiter of the export block. -/
def colon3 : List Char := ":::".toList

/-- Scan for the first occurrence of `:::`; on success return the suffix after
it.  This is the lazy `[\s\S]*?:::` part of the export-block regex. -/
def findClose : List Char → Option (List Char)
  | [] => none
  | c :: rest =>
    if colon3.isPrefixOf (c :: rest) then some ((c :: rest).drop 3)
    else findClose rest

/-- Fuelled worker for `removeExport`; the fuel is an upper bound on the input
length, so it never runs out on the initial call. -/
def removeExportGo : Nat → List Char → List Char
  | 0, l => l
  | _ + 1, [] => []
  | fuel + 1, c :: rest =>
    if exportMarker.isPrefixOf (c :: rest) then
      match findClose ((c :: rest).drop exportMarker.length) with
      | some suffix => removeExportGo fuel suffix
      | none => c :: removeExportGo fuel rest
    else c :: removeExportGo fuel rest

/-- `raw.replace(/:::EXPORT_DATA=[\s\S]*?:::/g, '')` (`App.tsx` line 209):
every occurrence of the marker followed (lazily) by anything up to the next
`:::` is deleted; a marker with no closing `:::` is left in place. -/
def removeExport (l : List Char) : List Char := removeExportGo l.length l

/-- The asterisk character. -/
def star : Char := Char.ofNat 42

/-- The number-sign character. -/
def hash : Char := Char.ofNat 35

/-- The backquote character. -/
def backquote : Char := Char.ofNat 96

/-- Left square bracket. -/
def lbrack : Char := Char.ofNat 91

/-- Right square bracket. -/
def rbrack : Char := Char.ofNat 93

/-- Replace every (non-overlapping, left-to-right) occurrence of the two-character
sequence `pp` by nothing; models `.replace(/\*\*/g, '')` and `.replace(/##/g, '')`
(`App.tsx` lines 210-211). -/
def removePair (p : Char) : List Char → List Char
  | a :: b :: rest =>
    if a = p ∧ b = p then removePair p rest else a :: removePair p (b :: rest)
  | l => l

/-- Scan for the first `]` reachable without crossing a line terminator (the
JavaScript `.` in `/\[.*?\]/` does not match line terminators); on success
return the suffix after the `]`. -/
def bracketClose : List Char → Option (List Char)
  | [] => none
  | c :: rest =>
    if c = rbrack then some rest
    else if c = Char.ofNat 10 ∨ c = Char.ofNat 13 then none
    else bracketClose rest

/-- Fuelled worker for `removeBrackets`. -/
def removeBracketsGo : Nat → List Char → List Char
  | 0, l => l
  | _ + 1, [] => []
  | fuel + 1, c :: rest =>
    if c = lbrack then
      match bracketClose rest with
      | some suffix => removeBracketsGo fuel suffix
      | none => c :: removeBracketsGo fuel rest
    else c :: removeBracketsGo fuel rest

/-- `.replace(/\[.*?\]/g, '')` (`App.tsx` line 212): a `[`, lazily anything up
to the first `]` on the same line, and the `]` are deleted together. -/
def removeBrackets (l : List Char) : List Char := removeBracketsGo l.length l

/-- The text-cleaning stage of `handlePlayMessage` (`App.tsx` lines 208-214):
strip the hidden export block, `**`, `##`, bracketed references and backquotes,
then trim. -/
def cleanMessageText (raw : List Char) : List Char :=
  trimJS ((removeBrackets (removePair hash (removePair star
    (removeExport raw)))).filter (· != backquote))

/-- Sentence-terminating punctuation of the chunking regex (`App.tsx` line 220). -/
def isPunct (c : Char) : Bool := c == '.' || c == '?' || c == '!'

/-- Closing brackets and quotes allowed after the punctuation
(the `[\])'"]*` part of the regex on `App.tsx` line 220). -/
def isCloser (c : Char) : Bool :=
  c == rbrack || c == Char.ofNat 41 || c == Char.ofNat 39 || c == Char.ofNat 34

/-- Fuelled worker for `scanSentences`; the fuel (any upper bound on the input
length) only forces termination and is never exhausted on the initial call. -/
def scanGo : Nat → List Char → List (List Char)
  | 0, _ => []
  | _ + 1, [] => []
  | fuel + 1, c :: rest =>
    if isPunct c then scanGo fuel rest
    else if List.dropWhile (fun a => !isPunct a) (c :: rest) = [] then
      [List.takeWhile (fun a => !isPunct a) (c :: rest)]
    else
      (List.takeWhile (fun a => !isPunct a) (c :: rest)
          ++ List.takeWhile isPunct (List.dropWhile (fun a => !isPunct a) (c :: rest))
          ++ List.takeWhile isCloser (List.dropWhile isPunct
              (List.dropWhile (fun a => !isPunct a) (c :: rest))))
        :: scanGo fuel (List.dropWhile isCloser (List.dropWhile isPunct
            (List.dropWhile (fun a => !isPunct a) (c :: rest))))

/-- All matches, in order, of the global regex
`/[^.?!]+[.?!]+[\])'"]*|[^.?!]+$/g` (`App.tsx` lines 220-221): a maximal run of
non-punctuation characters, a maximal run of punctuation, and a maximal run of
closers; or, at the end of the text, a final run of non-punctuation characters.
Positions at which no alternative matches (orphaned punctuation) are skipped,
exactly as a backtracking regex engine does. -/
def scanSentences (l : List Char) : List (List Char) := scanGo l.length l

/-- Fuelled worker for `chunkScanOk`, following `scanGo` branch for branch. -/
def chunkScanGo : Nat → List Char → Bool
  | 0, _ => true
  | _ + 1, [] => true
  | fuel + 1, c :: rest =>
    if isPunct c then false
    else if List.dropWhile (fun a => !isPunct a) (c :: rest) = [] then true
    else chunkScanGo fuel (List.dropWhile isCloser (List.dropWhile isPunct
      (List.dropWhile (fun a => !isPunct a) (c :: rest))))

/-- Whether the sentence scan never has to skip a character: every maximal
punctuation run is immediately preceded by a non-punctuation character (after
any previous match's closers).  When this holds, the matches of the sentence
regex cover the whole text. -/
def chunkScanOk (l : List Char) : Bool := chunkScanGo l.length l

/-- `cleanText.match(sentenceRegex) || [cleanText]` (`App.tsx` line 221):
when the regex finds no match at all, the whole text is used as the single
sentence. -/
def sentencesOf (l : List Char) : List (List Char) :=
  match scanSentences l with
  | [] => [l]
  | s => s

/-- The chunk-assembly fold of `App.tsx` lines 223-234, with the running
`currentChunk` accumulator made explicit.  A sentence is appended (plus a
trailing space) while the combined length stays under 500; otherwise the
accumulated chunk is emitted (if its trim is non-empty) and a new chunk starts. -/
def buildChunksAux : List (List Char) → List Char → List (List Char)
  | [], cur => if trimJS cur = [] then [] else [cur]
  | s :: rest, cur =>
    if (cur ++ s).length < 500 then buildChunksAux rest (cur ++ s ++ [' '])
    else if trimJS cur = [] then buildChunksAux rest (s ++ [' '])
    else cur :: buildChunksAux rest (s ++ [' '])

/-- The `processedChunks` array built by `App.tsx` lines 223-234. -/
def buildChunks (sents : List (List Char)) : List (List Char) := buildChunksAux sents []

/-- Chunking applied to already-cleaned text: sentence split then assembly. -/
def processedChunks (clean : List Char) : List (List Char) :=
  buildChunks (sentencesOf clean)

/-! PCM decoder (`audioUtils.ts` lines 159-170, duplicated inline in
`playChunk`, `App.tsx` lines 283-294).  A byte buffer is a `List Nat`; the
base64 transport (`atob` + `charCodeAt`) is modelled by taking the decoded
byte sequence as the input. -/

/-- `dataView.getInt16(i * 2, true)`: reassemble a signed 16-bit little-endian
integer from two bytes. -/
def int16LE (b0 b1 : Nat) : Int :=
  let v := b0 + 256 * b1
  if v < 32768 then (v : Int) else (v : Int) - 65536

/-- The asymmetric per-sample normalization
(`int16 < 0 ? int16 / 32768 : int16 / 32767`). -/
def pcmNorm (v : Int) : ℚ :=
  if v < 0 then (v : ℚ) / 32768 else (v : ℚ) / 32767

/-- `new Float32Array(pcmData.length / 2)`: for an odd byte count the
JavaScript division is fractional and the typed-array constructor truncates it
(ToIndex), so the sample count is the floor of half the byte count. -/
def pcmSampleCount (bytes : List Nat) : Nat := bytes.length / 2

/-- The 16-bit-PCM-to-float conversion loop: sample `i` is read from bytes
`2*i` and `2*i+1` (little endian) and normalized. -/
def decodePCM (bytes : List Nat) : List ℚ :=
  (List.range (pcmSampleCount bytes)).map (fun i =>
    pcmNorm (int16LE (bytes.getD (2 * i) 0) (bytes.getD (2 * i + 1) 0)))

/-! Synthesis client (`geminiService.ts` lines 106-133). -/

/-- The `inlineData` field of a response part; its `data` member may be absent. -/
structure InlineData where
  data : Option (List Char)
deriving DecidableEq

/-- One part of a response content. -/
structure GenPart where
  inlineData : Option InlineData
deriving DecidableEq

/-- A response content; its `parts` member may be absent. -/
structure GenContent where
  parts : Option (List GenPart)
deriving DecidableEq

/-- One response candidate; its `content` member may be absent. -/
structure GenCandidate where
  content : Option GenContent
deriving DecidableEq

/-- The response object of `ai.models.generateContent`. -/
structure GenResponse where
  candidates : Option (List GenCandidate)
deriving DecidableEq

/-- The optional chain
`response.candidates?.[0]?.content?.parts?.[0]?.inlineData?.data`
(`geminiService.ts` line 127): any absent link yields `undefined`. -/
def extractAudioData (r : GenResponse) : Option (List Char) := do
  let cs ← r.candidates
  let c0 ← cs.head?
  let ct ← c0.content
  let ps ← ct.parts
  let p0 ← ps.head?
  let idata ← p0.inlineData
  idata.data

/-- `generateSpeechFromText` (`geminiService.ts` lines 106-133): the remote
call either throws or returns a response (the `service` argument); the body
runs in `try`/`catch`, the `catch` arm returning `undefined`.  A `JsError`
escaping the function would be an `Except.error` result. -/
def generateSpeechFromText (service : Except Unit GenResponse) :
    Except Unit (Option (List Char)) := do
  try
    let response ← service
    pure (extractAudioData response)
  catch _ =>
    pure none

/-! Voice-overlay recognition state machine (`VoiceAgent.tsx` lines 38-106). -/

/-- Status values of the voice overlay (`VoiceAgent.tsx` line 18). -/
inductive VAStatus where
  | listening
  | processing
  | synthesizing
  | speaking
  | verror
deriving DecidableEq

/-- The voice-overlay component state: the React state (status, transcript,
aiResponseText), the `transcriptRef` mutable ref, and whether the recognizer
engine is currently started. -/
structure VAState where
  status : VAStatus
  transcript : List Char
  aiResponseText : List Char
  transcriptRef : List Char
  recognizerActive : Bool
deriving DecidableEq

/-- Events delivered by the speech-recognition engine. -/
inductive RecEvent where
  | started
  | result (isFinal : Bool) (text : List Char)
  | ended
  | errored (noSpeech : Bool)
deriving DecidableEq

/-- The recognizer event handlers installed by `startListening`
(`VoiceAgent.tsx` lines 52-92).  `onstart` resets the transcripts and shows
`listening`; a final `onresult` stores the transcript in the ref (the
truthiness guard keeps empty finals from overwriting); `onend` hands a
non-empty trimmed transcript to `handleUserQuery` (status `processing`) and
otherwise restarts the recognizer in place; `onerror` only logs — a benign
`no-speech` error changes nothing. -/
def vaHandleEvent (s : VAState) : RecEvent → VAState
  | .started => { s with status := .listening, transcriptRef := [], transcript := [] }
  | .result isFinal text =>
    if isFinal then
      if text ≠ [] then { s with transcriptRef := text, transcript := text } else s
    else { s with transcript := text }
  | .ended =>
    if trimJS s.transcriptRef ≠ [] then
      { s with recognizerActive := false, status := .processing }
    else
      { s with recognizerActive := true }
  | .errored _ => s

/-! The chunked playback pipeline as an event-loop step system.  All the code
of `App.tsx` between two `await` suspension points runs atomically; the
suspension points of `handlePlayMessage` are the `generateSpeechFromText`
calls and the `onended`-resolved promise of `playChunk`.  React state reads
inside an async invocation see the values captured by the closure at
invocation time; the `useRef` cells (`activeRequestRef`, `currentSourceRef`)
are always read live.  Request tokens are modelled as consecutive naturals
(the source uses `Date.now()` strings; only freshness matters). -/

/-- Suspension points of one `handlePlayMessage` run. -/
inductive PipePhase where
  | awaitFetch
  | awaitEnded (src : Nat)
deriving DecidableEq

/-- One in-flight `handlePlayMessage` invocation: its request token, target
message, the `playingMessageId` value captured by its closure at invocation
time (React state is frozen per render, so line 242 of `App.tsx` compares
against this snapshot, not the live value), its chunk list, current loop
index, and suspension point. -/
structure PipeTask where
  reqId : Nat
  msgId : Nat
  snapPlaying : Option Nat
  chunks : List (List Char)
  idx : Nat
  phase : PipePhase
deriving DecidableEq

/-- Suspension points of the voice overlay's `handleUserQuery`
(`VoiceAgent.tsx` lines 108-139). -/
inductive VoicePhase where
  | awaitChat (text : List Char)
  | awaitTTS
  | awaitSpeakEnd (src : Nat)
deriving DecidableEq

/-- The shared application state: the `App.tsx` React state
(`playingMessageId`, `loadingMessageId`, `isPlaying`) and refs
(`activeRequestRef`, `currentSourceRef`), the buffer sources started and not
yet stopped or ended — all of which render on the one physical output device,
whichever `AudioContext` created them — the suspended pipeline invocations, a
log of the synthesis fetches the pipeline has issued `(token, chunk index)`,
and the voice overlay's query cycle. -/
structure Sys where
  nextReq : Nat
  activeReq : Option Nat
  playingMsg : Option Nat
  loadingMsg : Option Nat
  isPlaying : Bool
  nextSrc : Nat
  activeSrcs : List Nat
  currentSrc : Option Nat
  started : List (Nat × List ℚ)
  tasks : List PipeTask
  fetchLog : List (Nat × Nat)
  voice : Option VoicePhase
  vstatus : VAStatus
deriving DecidableEq

/-- The initial state: nothing playing, no overlay query in flight. -/
def Sys.init : Sys :=
  { nextReq := 0, activeReq := none, playingMsg := none, loadingMsg := none,
    isPlaying := false, nextSrc := 0, activeSrcs := [], currentSrc := none,
    started := [], tasks := [], fetchLog := [], voice := none,
    vstatus := .listening }

/-- The `finally` block of `handlePlayMessage` (`App.tsx` lines 264-271):
reset the play state only when this invocation's token is still the active
one. -/
def finishTask (s : Sys) (t : PipeTask) : Sys :=
  if s.activeReq = some t.reqId then
    { s with playingMsg := none, loadingMsg := none, isPlaying := false }
  else s

/-- Run the `for` loop of `handlePlayMessage` (`App.tsx` lines 238-248) from
index `j` to the next suspension point: the token re-check (line 240, a stale
token returns with the token-guarded `finally` not firing), the UI-stop check
against the closure snapshot (line 242, breaking to the `finally`), the
whitespace-chunk skip (line 245), and issuing the synthesis fetch (line 248),
at which the invocation suspends as an `awaitFetch` task; a completed loop
runs the `finally`. -/
def loopGo (s : Sys) (t : PipeTask) : List (List Char) → Nat → Sys
  | [], _ => finishTask s t
  | chunk :: rest, j =>
    if s.activeReq ≠ some t.reqId then s
    else if t.snapPlaying ≠ some t.msgId ∧ 0 < j then finishTask s t
    else if trimJS chunk = [] then loopGo s t rest (j + 1)
    else
      { s with fetchLog := (t.reqId, j) :: s.fetchLog,
               tasks := { t with idx := j, phase := .awaitFetch } :: s.tasks }

/-- Enter the loop at index `j`: the remaining iterations walk the chunk list
from position `j`. -/
def loopStep (s : Sys) (t : PipeTask) (j : Nat) : Sys :=
  loopGo s t (t.chunks.drop j) j

/-- `playChunk` up to its suspension (`App.tsx` lines 274-309): the entry
token check (line 277) — on a stale token the promise resolves at once and
the loop continues — then decode, buffer creation, `currentSourceRef`
assignment and `source.start()`; the invocation then suspends awaiting the
new source's `onended`. -/
def playChunkStart (s : Sys) (t : PipeTask) (pcm : List Nat) : Sys :=
  if s.activeReq ≠ some t.reqId then loopStep s t (t.idx + 1)
  else
    let src := s.nextSrc
    { s with nextSrc := src + 1,
             currentSrc := some src,
             activeSrcs := src :: s.activeSrcs,
             started := (src, decodePCM pcm) :: s.started,
             tasks := { t with phase := .awaitEnded src } :: s.tasks }

/-- Continuation of `handlePlayMessage` when the chunk-`idx` synthesis fetch
resolves (`App.tsx` lines 248-261): re-check the token (line 251; stale means
return silently, and the token-guarded `finally` leaves state untouched);
with audio, flip loading to playing on the first chunk and start playback;
without audio (failed or empty synthesis), simply continue the loop with the
next chunk. -/
def fetchCont (s : Sys) (t : PipeTask) (audio : Option (List Nat)) : Sys :=
  if s.activeReq ≠ some t.reqId then s
  else
    match audio with
    | none => loopStep s t (t.idx + 1)
    | some pcm =>
      let s1 := if t.idx = 0 then { s with loadingMsg := none, isPlaying := true } else s
      playChunkStart s1 t pcm

/-- The synchronous prefix of `handlePlayMessage` (`App.tsx` lines 172-248):
mint a fresh request token and publish it (lines 173-174 — before anything
else, including the toggle check); if this very message is currently playing
(`playingMessageId === msgId && isPlaying`), stop the current source, clear
the play state and return; otherwise stop any current source, set the
loading state, capture the closure snapshot, clean and chunk the text, and
run the loop to its first suspension. -/
def handlePlayMessage (s : Sys) (msgId : Nat) (rawText : List Char) : Sys :=
  let reqId := s.nextReq
  let s0 := { s with nextReq := reqId + 1, activeReq := some reqId }
  if s0.playingMsg = some msgId ∧ s0.isPlaying then
    { s0 with activeSrcs := s0.activeSrcs.filter (fun a => s0.currentSrc ≠ some a),
              playingMsg := none, loadingMsg := none, isPlaying := false }
  else
    let snap := s0.playingMsg
    let s1 := { s0 with
      activeSrcs := s0.activeSrcs.filter (fun a => s0.currentSrc ≠ some a),
      playingMsg := some msgId, loadingMsg := some msgId, isPlaying := false }
    loopStep s1 { reqId := reqId, msgId := msgId, snapPlaying := snap,
                  chunks := processedChunks (cleanMessageText rawText),
                  idx := 0, phase := .awaitFetch } 0

/-- The environment resolves the pending synthesis fetch of the pipeline task
holding token `reqId` (an absent payload models a failed or audio-less
synthesis, which `generateSpeechFromText` reports as `undefined` rather than
throwing). -/
def fetchResolveStep (s : Sys) (reqId : Nat) (audio : Option (List Nat)) : Sys :=
  match s.tasks.find? (fun t => t.reqId == reqId && t.phase == PipePhase.awaitFetch) with
  | some t => fetchCont { s with tasks := s.tasks.filter (fun u => u != t) } t audio
  | none => s

/-- Delivery of a buffer source's `onended` callback (after natural completion
or after `stop()`): the source no longer renders; resolve whichever suspended
computation awaits it — a pipeline task's `playChunk` promise (`App.tsx`
lines 305-307, after which the loop continues) or the voice overlay's
`playPCMData` promise (after which the overlay resumes listening,
`VoiceAgent.tsx` lines 124-126). -/
def srcEndedCont (s : Sys) (src : Nat) : Sys :=
  match s.tasks.find? (fun t => t.phase == PipePhase.awaitEnded src) with
  | some t => loopStep { s with tasks := s.tasks.filter (fun u => u != t) } t (t.idx + 1)
  | none =>
    match s.voice with
    | some (.awaitSpeakEnd vsrc) =>
      if vsrc = src then { s with voice := none, vstatus := .listening } else s
    | _ => s

/-- The full `onended` delivery: mark the source as no longer rendering, then
resolve the awaiting computation. -/
def srcEndedStep (s : Sys) (src : Nat) : Sys :=
  srcEndedCont { s with activeSrcs := s.activeSrcs.filter (fun a => a ≠ src) } src

/-- `handleUserQuery` entry (`VoiceAgent.tsx` lines 108-113): status becomes
`processing` and the chat request is issued. -/
def voiceQueryStep (s : Sys) (text : List Char) : Sys :=
  match s.voice with
  | none => { s with vstatus := .processing, voice := some (.awaitChat text) }
  | some _ => s

/-- The overlay's chat call resolves (`VoiceAgent.tsx` lines 113-119): status
becomes `synthesizing` and the TTS request is issued. -/
def voiceChatResolveStep (s : Sys) : Sys :=
  match s.voice with
  | some (.awaitChat _) => { s with vstatus := .synthesizing, voice := some .awaitTTS }
  | _ => s

/-- The overlay's TTS call resolves (`VoiceAgent.tsx` lines 119-131).  With
audio, `playPCMData` decodes it and starts a fresh buffer source on the
output device — without touching the pipeline's `currentSourceRef` or
stopping any already active source (the overlay owns a separate
`AudioContext`); the overlay then awaits that source's end.  Without audio,
the overlay resumes listening. -/
def voiceTTSResolveStep (s : Sys) (audio : Option (List Nat)) : Sys :=
  match s.voice with
  | some .awaitTTS =>
    match audio with
    | some pcm =>
      let src := s.nextSrc
      { s with vstatus := .speaking,
               nextSrc := src + 1,
               activeSrcs := src :: s.activeSrcs,
               started := (src, decodePCM pcm) :: s.started,
               voice := some (.awaitSpeakEnd src) }
    | none => { s with voice := none, vstatus := .listening }
  | _ => s

/-- External events driving the system: user play clicks, fetch resolutions,
source-completion callbacks, and the voice overlay's query cycle. -/
inductive Act where
  | invoke (msgId : Nat) (rawText : List Char)
  | fetchResolve (reqId : Nat) (audio : Option (List Nat))
  | srcEnded (src : Nat)
  | voiceQuery (text : List Char)
  | voiceChatResolve
  | voiceTTSResolve (audio : Option (List Nat))
deriving DecidableEq

/-- One event-loop step. -/
def step (s : Sys) : Act → Sys
  | .invoke m txt => handlePlayMessage s m txt
  | .fetchResolve r a => fetchResolveStep s r a
  | .srcEnded src => srcEndedStep s src
  | .voiceQuery t => voiceQueryStep s t
  | .voiceChatResolve => voiceChatResolveStep s
  | .voiceTTSResolve a => voiceTTSResolveStep s a

/-- Execute an event sequence from the initial state. -/
def run (acts : List Act) : Sys := acts.foldl step Sys.init

/-- Events belonging to the chunked playback pipeline alone (no voice-overlay
activity). -/
def pipelineAct : Act → Bool
  | .invoke _ _ => true
  | .fetchResolve _ _ => true
  | .srcEnded _ => true
  | _ => false

/-- A concrete listening session that heard only an interim result (no final
transcript was captured in the ref). -/
def vaListeningSample : VAState :=
  { status := .listening, transcript := "hm".toList, aiResponseText := [],
    transcriptRef := [], recognizerActive := true }

/-- A one-sentence message text. -/
def hiText : List Char := "Hi.".toList

/-- A 250-character sentence (249 letters and a period). -/
def longSentence : List Char := List.replicate 249 'a' ++ ['.']

/-- A three-sentence text whose chunker output is exactly three chunks (each
pair of consecutive sentences exceeds the 500-character bound together). -/
def threeChunkText : List Char :=
  longSentence ++ (' ' :: longSentence) ++ (' ' :: longSentence)

/-- An event trace for claim C1's scenario: a play is invoked on a 3-chunk
message and invoked again while still loading (so the second invocation's
closure snapshot lets its loop run past chunk 1); the second pipeline's chunk
1 synthesis succeeds, chunk 2 fails (`none`), chunk 3 succeeds; the first
pipeline's fetch resolves last, stale. -/
def chunkFailTrace (a c : List Nat) : List Act :=
  [.invoke 0 threeChunkText, .invoke 0 threeChunkText,
   .fetchResolve 1 (some a), .srcEnded 0,
   .fetchResolve 1 none,
   .fetchResolve 1 (some c), .srcEnded 1,
   .fetchResolve 0 (some a)]

/-- An event trace in which the voice overlay's playback starts while the
pipeline is playing: play a message, let its first chunk start, then run a
voice query to the point where `playPCMData` starts the overlay's source. -/
def overlapTrace : List Act :=
  [.invoke 0 hiText, .fetchResolve 0 (some [0, 0]),
   .voiceQuery "q".toList, .voiceChatResolve, .voiceTTSResolve (some [0, 0])]

/-- The pipeline reachability invariant: task tokens are below the token
counter and pairwise distinct; awaited sources are below the source counter
and pairwise distinct; at most one source is active, it is the one
`currentSourceRef` points to, and its awaiting task holds the current
request token; and no voice-overlay cycle is in flight. -/
structure Inv (s : Sys) : Prop where
  taskReq : ∀ t ∈ s.tasks, t.reqId < s.nextReq
  reqNodup : s.tasks.Pairwise (fun a b => a.reqId ≠ b.reqId)
  srcLt : ∀ t ∈ s.tasks, ∀ x, t.phase = .awaitEnded x → x < s.nextSrc
  srcNodup : s.tasks.Pairwise
    (fun a b => ∀ x y, a.phase = .awaitEnded x → b.phase = .awaitEnded y → x ≠ y)
  srcShape : s.activeSrcs = [] ∨ ∃ c, s.currentSrc = some c ∧ s.activeSrcs = [c]
  srcOwner : ∀ x ∈ s.activeSrcs,
    ∃ t ∈ s.tasks, t.phase = .awaitEnded x ∧ s.activeReq = some t.reqId
  voiceNone : s.voice = none

/-- A pipeline task superseded by a newer request (its token 0 is stale; the
active token is 1). -/
def staleTask : PipeTask :=
  { reqId := 0, msgId := 5, snapPlaying := none, chunks := [hiText],
    idx := 0, phase := .awaitFetch }

/-- A state holding the stale `staleTask` while token 1 is active. -/
def staleSample : Sys :=
  { Sys.init with nextReq := 2, activeReq := some 1, tasks := [staleTask] }

/-- A state in which message 7 is playing (source 3 active) under token 4. -/
def playingSample : Sys :=
  { Sys.init with
    nextReq := 5, activeReq := some 4, playingMsg := some 7, loadingMsg := none,
    isPlaying := true, nextSrc := 4, activeSrcs := [3], currentSrc := some 3,
    tasks := [{ reqId := 4, msgId := 7, snapPlaying := some 7,
                chunks := [hiText, hiText], idx := 0, phase := .awaitEnded 3 }] }

theorem ws_ne {c x : Char} (h : isWS c = true) (hx : isWS x = false) : c ≠ x := by
  intro heq
  rw [heq, hx] at h
  cases h

theorem trimJS_eq_nil_iff (l : List Char) :
    trimJS l = [] ↔ ∀ c ∈ l, isWS c = true := by
  constructor
  · intro h c hc
    unfold trimJS at h
    rw [List.reverse_eq_nil_iff, List.dropWhile_eq_nil_iff] at h
    have h2 : ∀ a ∈ l.dropWhile isWS, isWS a = true := fun a ha =>
      h _ (List.mem_reverse.mpr ha)
    have hc' : c ∈ List.takeWhile isWS l ++ List.dropWhile isWS l := by
      rw [List.takeWhile_append_dropWhile]
      exact hc
    rcases List.mem_append.mp hc' with h1 | h1
    · exact List.mem_takeWhile_imp h1
    · exact h2 _ h1
  · intro h
    unfold trimJS
    have h1 : l.dropWhile isWS = [] :=
      List.dropWhile_eq_nil_iff.mpr fun c hc => h c hc
    rw [h1]
    rfl

theorem removeExportGo_ws (fuel : Nat) :
    ∀ l : List Char, (∀ c ∈ l, isWS c = true) → removeExportGo fuel l = l := by
  induction fuel with
  | zero => intro l _; rfl
  | succ fuel ih =>
    intro l h
    match l with
    | [] => rfl
    | c :: rest =>
      have hc : isWS c = true := h c (List.mem_cons_self _ _)
      have hcol : (':' == c) = false := by
        apply beq_eq_false_iff_ne.mpr
        intro heq
        exact ws_ne hc (by decide) heq.symm
      have hpre : exportMarker.isPrefixOf (c :: rest) = false := by
        rw [show exportMarker = ':' :: "::EXPORT_DATA=".toList from rfl]
        simp [List.isPrefixOf, hcol]
      rw [removeExportGo, if_neg (by simp [hpre])]
      rw [ih rest fun a ha => h a (List.mem_cons_of_mem _ ha)]

theorem removePair_ws (p : Char) (hp : isWS p = false) :
    ∀ l : List Char, (∀ c ∈ l, isWS c = true) → removePair p l = l
  | [] => fun _ => rfl
  | [a] => fun _ => rfl
  | a :: b :: rest => fun h => by
    have ha : ¬(a = p ∧ b = p) := fun hand =>
      ws_ne (h a (List.mem_cons_self _ _)) hp hand.1
    rw [removePair, if_neg ha]
    rw [removePair_ws p hp (b :: rest) fun c hc => h c (List.mem_cons_of_mem _ hc)]

theorem removeBracketsGo_ws (fuel : Nat) :
    ∀ l : List Char, (∀ c ∈ l, isWS c = true) → removeBracketsGo fuel l = l := by
  induction fuel with
  | zero => intro l _; rfl
  | succ fuel ih =>
    intro l h
    match l with
    | [] => rfl
    | c :: rest =>
      have hc : c ≠ lbrack := ws_ne (h c (List.mem_cons_self _ _)) (by decide)
      rw [removeBracketsGo, if_neg hc]
      rw [ih rest fun a ha => h a (List.mem_cons_of_mem _ ha)]

theorem cleanMessageText_ws (raw : List Char) (h : ∀ c ∈ raw, isWS c = true) :
    cleanMessageText raw = [] := by
  unfold cleanMessageText removeExport removeBrackets
  rw [removeExportGo_ws _ _ h, removePair_ws star (by decide) _ h,
    removePair_ws hash (by decide) _ h, removeBracketsGo_ws _ _ h,
    List.filter_eq_self.mpr
      (fun a ha => by
        simpa using ws_ne (h a ha) (x := backquote) (by decide))]
  exact (trimJS_eq_nil_iff raw).mpr h

theorem len_dropWhile_le (p : Char → Bool) :
    ∀ l : List Char, (List.dropWhile p l).length ≤ l.length
  | [] => le_refl _
  | a :: l => by
    rw [List.dropWhile_cons]
    split
    · exact le_trans (len_dropWhile_le p l) (Nat.le_succ _)
    · simp

/-! Lemmas about the PCM decoder. -/

theorem getD_mem_or_default (l : List Nat) (n d : Nat) :
    l.getD n d ∈ l ∨ l.getD n d = d := by
  induction l generalizing n with
  | nil => right; rfl
  | cons a l ih =>
    cases n with
    | zero => left; simp [List.getD]
    | succ m =>
      rcases ih m with h | h
      · left; simp [List.getD] at h ⊢; right; simpa [List.getD] using h
      · right; simpa [List.getD] using h

theorem int16LE_bounds (b0 b1 : Nat) (h0 : b0 < 256) (h1 : b1 < 256) :
    -32768 ≤ int16LE b0 b1 ∧ int16LE b0 b1 ≤ 32767 := by
  unfold int16LE
  simp only []
  split_ifs <;> constructor <;> omega

theorem pcmNorm_bounds (v : Int) (hl : -32768 ≤ v) (hr : v ≤ 32767) :
    -1 ≤ pcmNorm v ∧ pcmNorm v ≤ 1 := by
  unfold pcmNorm
  split_ifs with hneg
  · have hcast : (-32768 : ℚ) ≤ (v : ℚ) := by exact_mod_cast hl
    have hv : (v : ℚ) < 0 := by exact_mod_cast hneg
    constructor
    · rw [le_div_iff₀ (by norm_num : (0 : ℚ) < 32768)]
      linarith
    · rw [div_le_one (by norm_num : (0 : ℚ) < 32768)]
      linarith
  · have hv : (0 : ℚ) ≤ (v : ℚ) := by
      exact_mod_cast (by omega : (0 : Int) ≤ v)
    have hcast : (v : ℚ) ≤ 32767 := by exact_mod_cast hr
    constructor
    · rw [le_div_iff₀ (by norm_num : (0 : ℚ) < 32767)]
      linarith
    · rw [div_le_one (by norm_num : (0 : ℚ) < 32767)]
      linarith

theorem getD_dropLast (l : List Nat) (n d : Nat) (h : n < l.length - 1) :
    l.dropLast.getD n d = l.getD n d := by
  rw [List.getD_eq_getElem?_getD, List.getD_eq_getElem?_getD,
    List.dropLast_eq_take, List.getElem?_take]
  simp [h]

/-- C6: for a payload of even decoded byte count `2n`, the decoder outputs
exactly `n` samples; sample `k` is the `k`-th little-endian signed 16-bit
value, divided by 32768 when negative and by 32767 otherwise; and every
sample lies in `[-1, 1]`. -/
theorem decodePCM_spec (bytes : List Nat) (n : Nat)
    (hb : ∀ b ∈ bytes, b < 256) (hlen : bytes.length = 2 * n) :
    (decodePCM bytes).length = n ∧
    (∀ k, k < n →
      (decodePCM bytes).getD k 0
        = pcmNorm (int16LE (bytes.getD (2 * k) 0) (bytes.getD (2 * k + 1) 0))) ∧
    ∀ q ∈ decodePCM bytes, -1 ≤ q ∧ q ≤ 1 := by
  refine ⟨?_, ?_, ?_⟩
  · simp [decodePCM, pcmSampleCount, hlen]
  · intro k hk
    have hk' : k < pcmSampleCount bytes := by
      simp [pcmSampleCount, hlen]; omega
    rw [decodePCM, List.getD_eq_getElem?_getD, List.getElem?_map,
      List.getElem?_range (by simpa using hk')]
    rfl
  · intro q hq
    simp only [decodePCM, List.mem_map, List.mem_range] at hq
    obtain ⟨i, _, rfl⟩ := hq
    have hb0 : bytes.getD (2 * i) 0 < 256 := by
      rcases getD_mem_or_default bytes (2 * i) 0 with h | h
      · exact hb _ h
      · omega
    have hb1 : bytes.getD (2 * i + 1) 0 < 256 := by
      rcases getD_mem_or_default bytes (2 * i + 1) 0 with h | h
      · exact hb _ h
      · omega
    obtain ⟨hl, hr⟩ := int16LE_bounds _ _ hb0 hb1
    exact pcmNorm_bounds _ hl hr

/-- Witness for `decodePCM_spec` at the 4-byte payload
`[0, 128, 255, 127]` (samples `-1` and `1`). -/
theorem decodePCM_spec_witness :
    ((∀ b ∈ [0, 128, 255, 127], b < 256) ∧ [0, 128, 255, 127].length = 2 * 2) ∧
    ((decodePCM [0, 128, 255, 127]).length = 2 ∧
      (∀ k, k < 2 →
        (decodePCM [0, 128, 255, 127]).getD k 0
          = pcmNorm (int16LE ([0, 128, 255, 127].getD (2 * k) 0)
              ([0, 128, 255, 127].getD (2 * k + 1) 0))) ∧
      ∀ q ∈ decodePCM [0, 128, 255, 127], -1 ≤ q ∧ q ≤ 1) :=
  ⟨⟨by decide, by decide⟩, decodePCM_spec [0, 128, 255, 127] 2 (by decide) (by decide)⟩

/-- C5 counterexample: the 3-byte payload `[0, 128, 7]` has odd decoded
length, yet the decode step does not fail at all — `new Float32Array(3 / 2)`
truncates the fractional length (ToIndex), so the decoder succeeds with one
sample (`-1`) and the trailing byte is ignored. -/
theorem oddLength_decode_no_failure :
    decodePCM [0, 128, 7] = [-1] ∧ (decodePCM [0, 128, 7]).length = 1 := by
  constructor
  · rw [show decodePCM [0, 128, 7] = [pcmNorm (-32768)] from rfl]
    norm_num [pcmNorm]
  · rfl

/-- C5 amended: for every payload of odd decoded byte length the decoder does
not fail; it outputs `⌊length / 2⌋` samples, the final byte being ignored
(decoding the payload without its last byte gives the same samples). -/
theorem oddLength_decode_truncates (bytes : List Nat) (h : bytes.length % 2 = 1) :
    (decodePCM bytes).length = bytes.length / 2 ∧
    decodePCM bytes = decodePCM bytes.dropLast := by
  constructor
  · simp [decodePCM, pcmSampleCount]
  · unfold decodePCM pcmSampleCount
    have hlen : bytes.dropLast.length = bytes.length - 1 := List.length_dropLast bytes
    have hcount : bytes.dropLast.length / 2 = bytes.length / 2 := by omega
    rw [hcount]
    refine List.map_congr_left ?_
    intro i hi
    rw [List.mem_range] at hi
    have h0 : 2 * i < bytes.length - 1 := by omega
    have h1 : 2 * i + 1 < bytes.length - 1 := by omega
    rw [getD_dropLast _ _ _ h0, getD_dropLast _ _ _ h1]

/-- Witness for `oddLength_decode_truncates` at `[0, 128, 7]`. -/
theorem oddLength_decode_truncates_witness :
    [0, 128, 7].length % 2 = 1 ∧
    ((decodePCM [0, 128, 7]).length = [0, 128, 7].length / 2 ∧
      decodePCM [0, 128, 7] = decodePCM [0, 128, 7].dropLast) :=
  ⟨by decide, oddLength_decode_truncates [0, 128, 7] (by decide)⟩

/-- C10: for every outcome of the remote synthesis service — throwing, or
returning a response with or without audio — `generateSpeechFromText` never
propagates an exception: it always returns (`Except.ok`), with the audio
string exactly when the response's optional chain supplies one and
`undefined` (`none`) in every failure case. -/
theorem generateSpeechFromText_never_throws (service : Except Unit GenResponse) :
    ∃ v, generateSpeechFromText service = .ok v ∧
      (∀ r, service = .ok r → v = extractAudioData r) ∧
      (∀ e, service = .error e → v = none) := by
  cases service with
  | ok r =>
    refine ⟨extractAudioData r, rfl, ?_, ?_⟩
    · intro r' h
      cases h
      rfl
    · intro e h
      cases h
  | error e =>
    refine ⟨none, rfl, ?_, ?_⟩
    · intro r h
      cases h
    · intro e' _
      rfl

/-- Witness for `generateSpeechFromText_never_throws` at a throwing service
outcome. -/
theorem generateSpeechFromText_never_throws_witness :
    ∃ v, generateSpeechFromText (.error ()) = .ok v ∧
      (∀ r, (.error () : Except Unit GenResponse) = .ok r → v = extractAudioData r) ∧
      (∀ e, (.error () : Except Unit GenResponse) = .error e → v = none) :=
  generateSpeechFromText_never_throws (.error ())

/-- C9: in the `listening` state, a recognizer `onend` with an empty (or
whitespace-only) captured transcript leaves the status `listening`, changes
no other component state, and restarts the recognizer; a benign `no-speech`
`onerror` changes nothing at all. -/
theorem recognizer_empty_end_restarts (s : VAState)
    (hs : s.status = .listening) (he : trimJS s.transcriptRef = []) :
    (vaHandleEvent s .ended).status = .listening ∧
    (vaHandleEvent s .ended).recognizerActive = true ∧
    (vaHandleEvent s .ended).transcript = s.transcript ∧
    (vaHandleEvent s .ended).transcriptRef = s.transcriptRef ∧
    (vaHandleEvent s .ended).aiResponseText = s.aiResponseText ∧
    vaHandleEvent s (.errored true) = s := by
  simp [vaHandleEvent, he, hs]

/-! Lemmas about the text chunker (claim C7). -/

theorem filter_eq_nil_of_trimJS_eq_nil {l : List Char} (h : trimJS l = []) :
    l.filter (fun c => !isWS c) = [] := by
  rw [List.filter_eq_nil_iff]
  intro c hc
  simp [(trimJS_eq_nil_iff l).mp h c hc]

theorem trimJS_ne_nil_mono {a b : List Char} (hab : a <:+: b)
    (ha : trimJS a ≠ []) : trimJS b ≠ [] := by
  intro hb
  exact ha ((trimJS_eq_nil_iff a).mpr fun c hc =>
    (trimJS_eq_nil_iff b).mp hb c (hab.subset hc))

theorem scanGo_flatten (fuel : Nat) :
    ∀ l : List Char, l.length ≤ fuel → chunkScanGo fuel l = true →
      (scanGo fuel l).flatten = l := by
  induction fuel with
  | zero =>
    intro l hl _
    rw [List.length_eq_zero.mp (Nat.le_zero.mp hl)]
    rfl
  | succ fuel ih =>
    intro l hl hok
    match l with
    | [] => rfl
    | c :: rest =>
      by_cases hp : isPunct c
      · rw [chunkScanGo, if_pos hp] at hok
        cases hok
      · have hdw : List.dropWhile (fun a => !isPunct a) (c :: rest)
            = List.dropWhile (fun a => !isPunct a) rest := by
          rw [List.dropWhile_cons]
          simp [hp]
        by_cases hr1 : List.dropWhile (fun a => !isPunct a) (c :: rest) = []
        · rw [scanGo, if_neg hp, if_pos hr1]
          show List.takeWhile (fun a => !isPunct a) (c :: rest) ++ [] = c :: rest
          rw [List.append_nil]
          conv_rhs => rw [← List.takeWhile_append_dropWhile
            (p := fun a => !isPunct a) (l := c :: rest)]
          rw [hr1, List.append_nil]
        · have hlen3 : (List.dropWhile isCloser (List.dropWhile isPunct
              (List.dropWhile (fun a => !isPunct a) (c :: rest)))).length ≤ fuel := by
            calc (List.dropWhile isCloser (List.dropWhile isPunct
                    (List.dropWhile (fun a => !isPunct a) (c :: rest)))).length
                ≤ (List.dropWhile isPunct
                    (List.dropWhile (fun a => !isPunct a) (c :: rest))).length :=
                  len_dropWhile_le _ _
              _ ≤ (List.dropWhile (fun a => !isPunct a) (c :: rest)).length :=
                  len_dropWhile_le _ _
              _ ≤ rest.length := by rw [hdw]; exact len_dropWhile_le _ _
              _ ≤ fuel := by
                  have hll := hl
                  simp only [List.length_cons] at hll
                  omega
          have hok3 : chunkScanGo fuel (List.dropWhile isCloser (List.dropWhile isPunct
              (List.dropWhile (fun a => !isPunct a) (c :: rest)))) = true := by
            rw [chunkScanGo, if_neg hp, if_neg hr1] at hok
            exact hok
          rw [scanGo, if_neg hp, if_neg hr1]
          rw [List.flatten_cons, ih _ hlen3 hok3]
          conv_rhs => rw [← List.takeWhile_append_dropWhile
            (p := fun a => !isPunct a) (l := c :: rest)]
          conv_rhs => rw [← List.takeWhile_append_dropWhile
            (p := isPunct) (l := List.dropWhile (fun a => !isPunct a) (c :: rest))]
          conv_rhs => rw [← List.takeWhile_append_dropWhile
            (p := isCloser) (l := List.dropWhile isPunct
              (List.dropWhile (fun a => !isPunct a) (c :: rest)))]
          simp [List.append_assoc]

theorem sentencesOf_flatten (l : List Char) (hok : chunkScanOk l = true) :
    (sentencesOf l).flatten = l := by
  have hmain : (scanSentences l).flatten = l :=
    scanGo_flatten l.length l (le_refl _) hok
  unfold sentencesOf
  cases hscan : scanSentences l with
  | nil =>
    have hl : l = [] := by
      rw [hscan] at hmain
      simpa using hmain.symm
    simp [hl]
  | cons s ss =>
    rw [hscan] at hmain
    exact hmain

theorem filter_notWS_space : List.filter (fun c => !isWS c) [' '] = [] := rfl

theorem isWS_space : isWS ' ' = true := rfl

theorem buildChunksAux_filter (sents : List (List Char)) :
    ∀ cur : List Char,
      ((buildChunksAux sents cur).flatten).filter (fun c => !isWS c)
        = (cur ++ sents.flatten).filter (fun c => !isWS c) := by
  induction sents with
  | nil =>
    intro cur
    by_cases h : trimJS cur = []
    · simp [buildChunksAux, h, filter_eq_nil_of_trimJS_eq_nil h]
    · simp [buildChunksAux, h]
  | cons s rest ih =>
    intro cur
    by_cases hlt : (cur ++ s).length < 500
    · rw [buildChunksAux, if_pos hlt, ih]
      simp [List.filter_append, List.filter_cons, isWS_space]
    · by_cases hc : trimJS cur = []
      · rw [buildChunksAux, if_neg hlt, if_pos hc, ih]
        simp [List.filter_append, List.filter_cons, isWS_space,
          filter_eq_nil_of_trimJS_eq_nil hc]
      · rw [buildChunksAux, if_neg hlt, if_neg hc, List.flatten_cons,
          List.filter_append, ih]
        simp [List.filter_append, List.filter_cons, isWS_space]

theorem buildChunksAux_cur_infix (sents : List (List Char)) :
    ∀ cur : List Char, trimJS cur ≠ [] →
      ∃ ch ∈ buildChunksAux sents cur, cur <:+: ch := by
  induction sents with
  | nil =>
    intro cur h
    exact ⟨cur, by simp [buildChunksAux, h], List.infix_refl cur⟩
  | cons s rest ih =>
    intro cur h
    by_cases hlt : (cur ++ s).length < 500
    · have hpre : cur <:+: cur ++ s ++ [' '] := ⟨[], s ++ [' '], by simp⟩
      obtain ⟨ch, hch, hinf⟩ := ih (cur ++ s ++ [' ']) (trimJS_ne_nil_mono hpre h)
      refine ⟨ch, ?_, hpre.trans hinf⟩
      simp only [buildChunksAux, hlt, if_true]
      exact hch
    · refine ⟨cur, ?_, List.infix_refl cur⟩
      rw [buildChunksAux, if_neg hlt, if_neg h]
      exact List.mem_cons_self _ _

theorem buildChunksAux_sent_infix (sents : List (List Char)) :
    ∀ cur sent : List Char, sent ∈ sents → trimJS sent ≠ [] →
      ∃ ch ∈ buildChunksAux sents cur, sent <:+: ch := by
  induction sents with
  | nil =>
    intro _ _ hmem
    cases hmem
  | cons s rest ih =>
    intro cur sent hmem hne
    rcases List.mem_cons.mp hmem with rfl | hmem
    · by_cases hlt : (cur ++ sent).length < 500
      · have hs : sent <:+: cur ++ sent ++ [' '] := ⟨cur, [' '], by simp⟩
        obtain ⟨ch, hch, hinf⟩ :=
          buildChunksAux_cur_infix rest (cur ++ sent ++ [' ']) (trimJS_ne_nil_mono hs hne)
        refine ⟨ch, ?_, hs.trans hinf⟩
        simp only [buildChunksAux, hlt, if_true]
        exact hch
      · have hs : sent <:+: sent ++ [' '] := ⟨[], [' '], by simp⟩
        obtain ⟨ch, hch, hinf⟩ :=
          buildChunksAux_cur_infix rest (sent ++ [' ']) (trimJS_ne_nil_mono hs hne)
        by_cases hc : trimJS cur = []
        · refine ⟨ch, ?_, hs.trans hinf⟩
          simp only [buildChunksAux, hlt, if_false, hc, if_true]
          exact hch
        · refine ⟨ch, ?_, hs.trans hinf⟩
          simp only [buildChunksAux, hlt, if_false, hc, ite_false]
          exact List.mem_cons_of_mem _ hch
    · by_cases hlt : (cur ++ s).length < 500
      · obtain ⟨ch, hch, hinf⟩ := ih (cur ++ s ++ [' ']) sent hmem hne
        refine ⟨ch, ?_, hinf⟩
        simp only [buildChunksAux, hlt, if_true]
        exact hch
      · by_cases hc : trimJS cur = []
        · obtain ⟨ch, hch, hinf⟩ := ih (s ++ [' ']) sent hmem hne
          refine ⟨ch, ?_, hinf⟩
          simp only [buildChunksAux, hlt, if_false, hc, if_true]
          exact hch
        · obtain ⟨ch, hch, hinf⟩ := ih (s ++ [' ']) sent hmem hne
          refine ⟨ch, ?_, hinf⟩
          simp only [buildChunksAux, hlt, if_false, hc, ite_false]
          exact List.mem_cons_of_mem _ hch

/-- C7 counterexample: on the cleaned input `?a` — an orphaned `?` with no
preceding sentence text — the sentence regex drops the `?` entirely, so the
concatenated chunks (whitespace disregarded) do not reconstruct the cleaned
input: a punctuation character, not whitespace, is lost. -/
theorem chunker_drops_orphan_punctuation :
    (processedChunks (cleanMessageText "?a".toList)).flatten.filter (fun c => !isWS c)
      ≠ (cleanMessageText "?a".toList).filter (fun c => !isWS c) := by
  decide

/-- C7 amended: for every cleaned input in which every punctuation run is
attached to preceding non-punctuation text (no orphaned punctuation, as
`chunkScanOk` states), concatenating the produced chunks reconstructs the
cleaned input up to whitespace, and no sentence is split across a chunk
boundary: every sentence with non-whitespace content lies whole inside a
single chunk (in particular a final fragment lacking terminal punctuation is
still emitted inside the last chunk). -/
theorem chunker_reconstructs (l : List Char) (hok : chunkScanOk l = true) :
    (processedChunks l).flatten.filter (fun c => !isWS c)
      = l.filter (fun c => !isWS c) ∧
    ∀ sent ∈ sentencesOf l, trimJS sent ≠ [] →
      ∃ ch ∈ processedChunks l, sent <:+: ch := by
  constructor
  · unfold processedChunks buildChunks
    rw [buildChunksAux_filter, List.nil_append, sentencesOf_flatten l hok]
  · intro sent hmem hne
    exact buildChunksAux_sent_infix (sentencesOf l) [] sent hmem hne

/-- Witness for `chunker_reconstructs` on a two-sentence input whose final
fragment lacks terminal punctuation. -/
theorem chunker_reconstructs_witness :
    chunkScanOk "Hi there. Bye".toList = true ∧
    ((processedChunks "Hi there. Bye".toList).flatten.filter (fun c => !isWS c)
        = "Hi there. Bye".toList.filter (fun c => !isWS c) ∧
      ∀ sent ∈ sentencesOf "Hi there. Bye".toList, trimJS sent ≠ [] →
        ∃ ch ∈ processedChunks "Hi there. Bye".toList, sent <:+: ch) :=
  ⟨by decide, chunker_reconstructs "Hi there. Bye".toList (by decide)⟩

/-- Witness for `recognizer_empty_end_restarts` at a concrete listening
session with an interim transcript but no final one. -/
theorem recognizer_empty_end_restarts_witness :
    (vaListeningSample.status = .listening ∧ trimJS vaListeningSample.transcriptRef = []) ∧
    ((vaHandleEvent vaListeningSample .ended).status = .listening ∧
      (vaHandleEvent vaListeningSample .ended).recognizerActive = true ∧
      (vaHandleEvent vaListeningSample .ended).transcript = vaListeningSample.transcript ∧
      (vaHandleEvent vaListeningSample .ended).transcriptRef = vaListeningSample.transcriptRef ∧
      (vaHandleEvent vaListeningSample .ended).aiResponseText = vaListeningSample.aiResponseText ∧
      vaHandleEvent vaListeningSample (.errored true) = vaListeningSample) :=
  ⟨⟨rfl, rfl⟩, recognizer_empty_end_restarts vaListeningSample rfl rfl⟩

theorem loopStep_nil_chunks (s : Sys) (t : PipeTask) (hc : t.chunks = [])
    (j : Nat) (hact : s.activeReq = some t.reqId) :
    loopStep s t j
      = { s with playingMsg := none, loadingMsg := none, isPlaying := false } := by
  rw [loopStep, hc, List.drop_nil]
  show finishTask s t = _
  unfold finishTask
  rw [if_pos hact]

/-! Claim C8: empty input. -/

/-- C8: invoking play with empty or whitespace-only text yields zero chunks
and is an immediate no-op success: in any state, the resulting status is idle
(nothing playing or loading), no synthesis call is issued, and no pipeline
task is left behind. -/
theorem empty_input_immediate_idle (s : Sys) (m : Nat) (raw : List Char)
    (h : ∀ c ∈ raw, isWS c = true) :
    processedChunks (cleanMessageText raw) = [] ∧
    (step s (.invoke m raw)).playingMsg = none ∧
    (step s (.invoke m raw)).loadingMsg = none ∧
    (step s (.invoke m raw)).isPlaying = false ∧
    (step s (.invoke m raw)).fetchLog = s.fetchLog ∧
    (step s (.invoke m raw)).tasks = s.tasks := by
  have hchunks : processedChunks (cleanMessageText raw) = [] := by
    rw [cleanMessageText_ws raw h]
    rfl
  refine ⟨hchunks, ?_⟩
  show _ ∧ _ ∧ _ ∧ _ ∧ _
  simp only [step, handlePlayMessage]
  split_ifs with htog
  · exact ⟨rfl, rfl, rfl, rfl, rfl⟩
  · rw [loopStep_nil_chunks _ _ hchunks 0 rfl]
    exact ⟨rfl, rfl, rfl, rfl, rfl⟩

/-- Witness for `empty_input_immediate_idle`: whitespace-only text in the
initial state. -/
theorem empty_input_immediate_idle_witness :
    (∀ c ∈ [' ', ' '], isWS c = true) ∧
    (processedChunks (cleanMessageText [' ', ' ']) = [] ∧
      (step Sys.init (.invoke 0 [' ', ' '])).playingMsg = none ∧
      (step Sys.init (.invoke 0 [' ', ' '])).loadingMsg = none ∧
      (step Sys.init (.invoke 0 [' ', ' '])).isPlaying = false ∧
      (step Sys.init (.invoke 0 [' ', ' '])).fetchLog = Sys.init.fetchLog ∧
      (step Sys.init (.invoke 0 [' ', ' '])).tasks = Sys.init.tasks) :=
  ⟨by decide, empty_input_immediate_idle Sys.init 0 [' ', ' '] (by decide)⟩

/-! Helper lemmas for the pipeline invariant. -/

theorem pairwise_reqId_unique {l : List PipeTask}
    (hp : l.Pairwise (fun a b => a.reqId ≠ b.reqId)) :
    ∀ t ∈ l, ∀ u ∈ l, t.reqId = u.reqId → t = u := by
  induction l with
  | nil => intro t ht; cases ht
  | cons a l ih =>
    rw [List.pairwise_cons] at hp
    obtain ⟨ha, hl⟩ := hp
    intro t ht u hu heq
    rcases List.mem_cons.mp ht with rfl | ht' <;>
      rcases List.mem_cons.mp hu with rfl | hu'
    · rfl
    · exact absurd heq (ha u hu')
    · exact absurd heq.symm (ha t ht')
    · exact ih hl t ht' u hu' heq

theorem pairwise_src_unique {l : List PipeTask}
    (hp : l.Pairwise (fun a b => ∀ x y,
      a.phase = .awaitEnded x → b.phase = .awaitEnded y → x ≠ y)) :
    ∀ t ∈ l, ∀ u ∈ l, ∀ x, t.phase = .awaitEnded x → u.phase = .awaitEnded x →
      t = u := by
  induction l with
  | nil => intro t ht; cases ht
  | cons a l ih =>
    rw [List.pairwise_cons] at hp
    obtain ⟨ha, hl⟩ := hp
    intro t ht u hu x hxt hxu
    rcases List.mem_cons.mp ht with rfl | ht' <;>
      rcases List.mem_cons.mp hu with rfl | hu'
    · rfl
    · exact absurd rfl (ha u hu' x x hxt hxu)
    · exact absurd rfl (ha t ht' x x hxu hxt)
    · exact ih hl t ht' u hu' x hxt hxu

theorem find?_unique_mem {α : Type} (p : α → Bool) {l : List α} {t : α}
    (ht : t ∈ l) (hpt : p t = true)
    (huniq : ∀ u ∈ l, p u = true → u = t) : l.find? p = some t := by
  induction l with
  | nil => cases ht
  | cons a l ih =>
    by_cases hpa : p a = true
    · rw [List.find?_cons_of_pos _ hpa, huniq a (List.mem_cons_self _ _) hpa]
    · rw [List.find?_cons_of_neg _ hpa]
      have ht' : t ∈ l := by
        rcases List.mem_cons.mp ht with rfl | h'
        · exact absurd hpt hpa
        · exact h'
      exact ih ht' fun u hu hpu => huniq u (List.mem_cons_of_mem _ hu) hpu

theorem stopCurrent_nil (L : List Nat) (cs : Option Nat)
    (hshape : L = [] ∨ ∃ c, cs = some c ∧ L = [c]) :
    L.filter (fun a => cs ≠ some a) = [] := by
  rcases hshape with hn | ⟨c, hc, hl⟩
  · rw [hn]
    rfl
  · rw [hl, hc]
    simp

theorem finishTask_stale (s : Sys) (t : PipeTask)
    (hstale : s.activeReq ≠ some t.reqId) : finishTask s t = s := by
  unfold finishTask
  rw [if_neg hstale]

theorem loopGo_stale (s : Sys) (t : PipeTask)
    (hstale : s.activeReq ≠ some t.reqId) :
    ∀ rest j, loopGo s t rest j = s
  | [], _ => finishTask_stale s t hstale
  | chunk :: rest, j => by
    rw [loopGo, if_pos hstale]

theorem inv_finishTask (s : Sys) (t : PipeTask) (h : Inv s) :
    Inv (finishTask s t) := by
  unfold finishTask
  split_ifs with hact
  · exact ⟨h.taskReq, h.reqNodup, h.srcLt, h.srcNodup, h.srcShape, h.srcOwner,
      h.voiceNone⟩
  · exact h

theorem inv_loopGo (s : Sys) (t : PipeTask) (h : Inv s)
    (hreq : t.reqId < s.nextReq) (hdist : ∀ u ∈ s.tasks, u.reqId ≠ t.reqId) :
    ∀ rest j, Inv (loopGo s t rest j) := by
  intro rest
  induction rest with
  | nil => intro _; exact inv_finishTask s t h
  | cons chunk rest ih =>
    intro j
    rw [loopGo]
    split_ifs with h1 h2 h3
    · exact h
    · exact inv_finishTask s t h
    · exact ih (j + 1)
    · refine ⟨?_, ?_, ?_, ?_, h.srcShape, ?_, h.voiceNone⟩
      · intro u hu
        rcases List.mem_cons.mp hu with rfl | hu'
        · exact hreq
        · exact h.taskReq u hu'
      · rw [List.pairwise_cons]
        exact ⟨fun u hu => (hdist u hu).symm, h.reqNodup⟩
      · intro u hu x hx
        rcases List.mem_cons.mp hu with rfl | hu'
        · cases hx
        · exact h.srcLt u hu' x hx
      · rw [List.pairwise_cons]
        refine ⟨fun u hu x y hx hy => ?_, h.srcNodup⟩
        cases hx
      · intro x hx
        obtain ⟨w, hw, hwp, hwa⟩ := h.srcOwner x hx
        exact ⟨w, List.mem_cons_of_mem _ hw, hwp, hwa⟩

theorem inv_loopStep (s : Sys) (t : PipeTask) (h : Inv s)
    (hreq : t.reqId < s.nextReq) (hdist : ∀ u ∈ s.tasks, u.reqId ≠ t.reqId)
    (j : Nat) : Inv (loopStep s t j) :=
  inv_loopGo s t h hreq hdist _ j

theorem inv_handlePlayMessage (s : Sys) (m : Nat) (raw : List Char)
    (h : Inv s) : Inv (handlePlayMessage s m raw) := by
  simp only [handlePlayMessage]
  split_ifs with htog
  · refine ⟨?_, h.reqNodup, h.srcLt, h.srcNodup, ?_, ?_, h.voiceNone⟩
    · intro u hu
      exact Nat.lt_succ_of_lt (h.taskReq u hu)
    · left
      exact stopCurrent_nil s.activeSrcs s.currentSrc h.srcShape
    · intro x hx
      rw [stopCurrent_nil s.activeSrcs s.currentSrc h.srcShape] at hx
      cases hx
  · apply inv_loopStep
    · refine ⟨?_, h.reqNodup, h.srcLt, h.srcNodup, ?_, ?_, h.voiceNone⟩
      · intro u hu
        exact Nat.lt_succ_of_lt (h.taskReq u hu)
      · left
        exact stopCurrent_nil s.activeSrcs s.currentSrc h.srcShape
      · intro x hx
        rw [stopCurrent_nil s.activeSrcs s.currentSrc h.srcShape] at hx
        cases hx
    · exact Nat.lt_succ_self _
    · intro u hu
      exact Nat.ne_of_lt (h.taskReq u hu)

theorem fetchCont_stale (s : Sys) (t : PipeTask) (a : Option (List Nat))
    (h : ¬ s.activeReq = some t.reqId) : fetchCont s t a = s := by
  unfold fetchCont
  rw [if_pos h]

theorem fetchCont_none (s : Sys) (t : PipeTask)
    (h : s.activeReq = some t.reqId) :
    fetchCont s t none = loopStep s t (t.idx + 1) := by
  unfold fetchCont
  rw [if_neg (not_not_intro h)]

theorem fetchCont_some (s : Sys) (t : PipeTask) (pcm : List Nat)
    (h : s.activeReq = some t.reqId) :
    fetchCont s t (some pcm)
      = playChunkStart
          (if t.idx = 0 then { s with loadingMsg := none, isPlaying := true } else s)
          t pcm := by
  unfold fetchCont
  rw [if_neg (not_not_intro h)]

theorem playChunkStart_current (s : Sys) (t : PipeTask) (pcm : List Nat)
    (h : s.activeReq = some t.reqId) :
    playChunkStart s t pcm
      = { s with
          nextSrc := s.nextSrc + 1
          currentSrc := some s.nextSrc
          activeSrcs := s.nextSrc :: s.activeSrcs
          started := (s.nextSrc, decodePCM pcm) :: s.started
          tasks := { t with phase := .awaitEnded s.nextSrc } :: s.tasks } := by
  unfold playChunkStart
  rw [if_neg (not_not_intro h)]

theorem inv_fetchResolveStep (s : Sys) (r : Nat) (a : Option (List Nat))
    (h : Inv s) : Inv (fetchResolveStep s r a) := by
  unfold fetchResolveStep
  cases hfind : s.tasks.find? (fun t => t.reqId == r && t.phase == PipePhase.awaitFetch) with
  | none => exact h
  | some t =>
    have hmem : t ∈ s.tasks := List.mem_of_find?_eq_some hfind
    have hpred := List.find?_some hfind
    rw [Bool.and_eq_true, beq_iff_eq, beq_iff_eq] at hpred
    obtain ⟨hreqt, hphaset⟩ := hpred
    have hsub : (s.tasks.filter (fun u => u != t)).Sublist s.tasks :=
      List.filter_sublist _
    have hmemf : ∀ u ∈ s.tasks.filter (fun u => u != t), u ∈ s.tasks ∧ u ≠ t := by
      intro u hu
      have := List.mem_filter.mp hu
      exact ⟨this.1, by simpa using this.2⟩
    have hdist : ∀ u ∈ s.tasks.filter (fun u => u != t), u.reqId ≠ t.reqId := by
      intro u hu hequ
      obtain ⟨hu', hne⟩ := hmemf u hu
      exact hne (pairwise_reqId_unique h.reqNodup u hu' t hmem hequ)
    have h' : Inv { s with tasks := s.tasks.filter (fun u => u != t) } := by
      refine ⟨?_, h.reqNodup.sublist hsub, ?_, h.srcNodup.sublist hsub, h.srcShape,
        ?_, h.voiceNone⟩
      · intro u hu
        exact h.taskReq u (hmemf u hu).1
      · intro u hu x hx
        exact h.srcLt u (hmemf u hu).1 x hx
      · intro x hx
        obtain ⟨w, hw, hwp, hwa⟩ := h.srcOwner x hx
        have hwt : w ≠ t := by
          intro hwt
          rw [hwt, hphaset] at hwp
          cases hwp
        exact ⟨w, List.mem_filter.mpr ⟨hw, by simpa using hwt⟩, hwp, hwa⟩
    show Inv (fetchCont { s with tasks := s.tasks.filter (fun u => u != t) } t a)
    by_cases hstale : s.activeReq = some t.reqId
    case neg =>
      rw [fetchCont_stale]
      · exact h'
      · exact hstale
    case pos =>
      cases a with
      | none =>
        rw [fetchCont_none]
        · exact inv_loopGo _ t h' (h.taskReq t hmem) hdist _ _
        · exact hstale
      | some pcm =>
        rw [fetchCont_some]
        case some.h => exact hstale
        have hempty : s.activeSrcs = [] := by
          by_contra hne
          rcases h.srcShape with h0 | ⟨c, hc, hl⟩
          · exact hne h0
          · obtain ⟨w, hw, hwp, hwa⟩ :=
              h.srcOwner c (by rw [hl]; exact List.mem_cons_self _ _)
            have hweq : w.reqId = t.reqId := by
              rw [hstale] at hwa
              exact (Option.some_inj.mp hwa).symm
            have hwt : w = t := pairwise_reqId_unique h.reqNodup w hw t hmem hweq
            rw [hwt, hphaset] at hwp
            cases hwp
        by_cases hidx : t.idx = 0 <;>
          [rw [if_pos hidx, playChunkStart_current _ _ _ (by exact hstale)];
           rw [if_neg hidx, playChunkStart_current _ _ _ (by exact hstale)]] <;>
        · refine ⟨?_, ?_, ?_, ?_, ?_, ?_, h.voiceNone⟩
          · intro u hu
            rcases List.mem_cons.mp hu with rfl | hu'
            · exact h.taskReq t hmem
            · exact h.taskReq u (hmemf u hu').1
          · rw [List.pairwise_cons]
            exact ⟨fun u hu => (hdist u hu).symm, h.reqNodup.sublist hsub⟩
          · intro u hu x hx
            rcases List.mem_cons.mp hu with rfl | hu'
            · cases hx
              exact Nat.lt_succ_self _
            · exact Nat.lt_succ_of_lt (h.srcLt u (hmemf u hu').1 x hx)
          · rw [List.pairwise_cons]
            refine ⟨fun u hu x y hx hy => ?_, h.srcNodup.sublist hsub⟩
            cases hx
            have hyy := h.srcLt u (hmemf u hu).1 y hy
            show s.nextSrc ≠ y
            omega
          · right
            refine ⟨s.nextSrc, rfl, ?_⟩
            show s.nextSrc :: s.activeSrcs = [s.nextSrc]
            rw [hempty]
          · intro x hx
            have hx2 : x ∈ s.nextSrc :: s.activeSrcs := hx
            rw [hempty] at hx2
            rcases List.mem_cons.mp hx2 with rfl | hx'
            · exact ⟨_, List.mem_cons_self _ _, rfl, hstale⟩
            · cases hx'

theorem inv_srcEndedCont (s : Sys) (x : Nat) (h : Inv s)
    (hx : x ∉ s.activeSrcs) : Inv (srcEndedCont s x) := by
  unfold srcEndedCont
  cases hfind : s.tasks.find? (fun t => t.phase == PipePhase.awaitEnded x) with
  | none =>
    rw [h.voiceNone]
    exact h
  | some t =>
    have hmem : t ∈ s.tasks := List.mem_of_find?_eq_some hfind
    have hpred := List.find?_some hfind
    rw [beq_iff_eq] at hpred
    have hsub : (s.tasks.filter (fun u => u != t)).Sublist s.tasks :=
      List.filter_sublist _
    have hmemf : ∀ u ∈ s.tasks.filter (fun u => u != t), u ∈ s.tasks ∧ u ≠ t := by
      intro u hu
      have := List.mem_filter.mp hu
      exact ⟨this.1, by simpa using this.2⟩
    have hdist : ∀ u ∈ s.tasks.filter (fun u => u != t), u.reqId ≠ t.reqId := by
      intro u hu hequ
      obtain ⟨hu', hne⟩ := hmemf u hu
      exact hne (pairwise_reqId_unique h.reqNodup u hu' t hmem hequ)
    have h' : Inv { s with tasks := s.tasks.filter (fun u => u != t) } := by
      refine ⟨?_, h.reqNodup.sublist hsub, ?_, h.srcNodup.sublist hsub, h.srcShape,
        ?_, h.voiceNone⟩
      · intro u hu
        exact h.taskReq u (hmemf u hu).1
      · intro u hu y hy
        exact h.srcLt u (hmemf u hu).1 y hy
      · intro y hy
        obtain ⟨w, hw, hwp, hwa⟩ := h.srcOwner y hy
        have hwt : w ≠ t := by
          intro hwte
          subst hwte
          rw [hpred] at hwp
          cases hwp
          exact hx hy
        exact ⟨w, List.mem_filter.mpr ⟨hw, by simpa using hwt⟩, hwp, hwa⟩
    exact inv_loopStep _ t h' (h.taskReq t hmem) hdist _

theorem inv_srcEndedStep (s : Sys) (x : Nat) (h : Inv s) :
    Inv (srcEndedStep s x) := by
  unfold srcEndedStep
  apply inv_srcEndedCont
  case hx =>
    intro hmm
    simpa using (List.mem_filter.mp hmm).2
  have hshape1 : s.activeSrcs.filter (fun a => a ≠ x) = [] ∨
      ∃ c, s.currentSrc = some c ∧ s.activeSrcs.filter (fun a => a ≠ x) = [c] := by
    rcases h.srcShape with h0 | ⟨c, hc, hl⟩
    · left
      rw [h0]
      rfl
    · by_cases hcx : c = x
      · left
        rw [hl, hcx]
        simp
      · right
        exact ⟨c, hc, by rw [hl]; simp [hcx]⟩
  refine ⟨h.taskReq, h.reqNodup, h.srcLt, h.srcNodup, hshape1, ?_, h.voiceNone⟩
  intro y hy
  exact h.srcOwner y (List.mem_of_mem_filter hy)

theorem inv_init : Inv Sys.init := by
  refine ⟨?_, ?_, ?_, ?_, ?_, ?_, rfl⟩ <;> simp [Sys.init]

theorem inv_step_pipeline (s : Sys) (a : Act) (h : Inv s)
    (ha : pipelineAct a = true) : Inv (step s a) := by
  cases a with
  | invoke m raw => exact inv_handlePlayMessage s m raw h
  | fetchResolve r au => exact inv_fetchResolveStep s r au h
  | srcEnded x => exact inv_srcEndedStep s x h
  | voiceQuery t => cases ha
  | voiceChatResolve => cases ha
  | voiceTTSResolve au => cases ha

theorem inv_run_pipeline (acts : List Act)
    (h : ∀ a ∈ acts, pipelineAct a = true) : Inv (run acts) := by
  have H : ∀ s, Inv s → Inv (acts.foldl step s) := by
    induction acts with
    | nil => intro s hs; exact hs
    | cons a acts ih =>
      intro s hs
      exact ih (fun b hb => h b (List.mem_cons_of_mem _ hb)) (step s a)
        (inv_step_pipeline s a hs (h a (List.mem_cons_self _ _)))
  exact H Sys.init inv_init

/-! Claim C4: exclusive playback. -/

/-- C4 counterexample: with the pipeline playing message 0 (its source is
active on the output device), the voice overlay completes a query and
`playPCMData` starts a second source — stopping nothing, since the overlay
owns a separate `AudioContext` and never touches `currentSourceRef` — so two
sources are active (rendering to the one physical output device)
simultaneously: starting the other component's playback does not stop the
previously active unit. -/
theorem two_sources_active_counterexample :
    (run overlapTrace).activeSrcs = [1, 0] ∧
    ¬ (run overlapTrace).activeSrcs.length ≤ 1 := by
  refine ⟨by decide, by decide⟩

/-- C4 amended: restricted to the chunked playback pipeline alone (no voice
overlay activity), at most one buffer source is ever active on the output
device: for every pipeline event sequence, the final state — and hence, since
prefixes of pipeline traces are pipeline traces, every intermediate state —
has at most one active source.  No cross-component exclusion exists: the
voice overlay's playback neither stops nor is stopped by the pipeline's. -/
theorem pipeline_single_active_source (acts : List Act)
    (h : ∀ a ∈ acts, pipelineAct a = true) :
    (run acts).activeSrcs.length ≤ 1 := by
  rcases (inv_run_pipeline acts h).srcShape with h0 | ⟨c, _, hl⟩
  · rw [h0]
    decide
  · rw [hl]
    simp

/-- Witness for `pipeline_single_active_source` on a concrete two-request
trace. -/
theorem pipeline_single_active_source_witness :
    (∀ a ∈ [Act.invoke 0 hiText, Act.fetchResolve 0 (some [0, 0]),
        Act.invoke 1 hiText], pipelineAct a = true) ∧
    (run [Act.invoke 0 hiText, Act.fetchResolve 0 (some [0, 0]),
        Act.invoke 1 hiText]).activeSrcs.length ≤ 1 :=
  ⟨by decide, pipeline_single_active_source _ (by decide)⟩

/-! Claim C3: token-based cancellation of superseded requests. -/

theorem inv_staleSample : Inv staleSample := by
  refine ⟨?_, ?_, ?_, ?_, ?_, ?_, rfl⟩ <;>
    simp [staleSample, staleTask, Sys.init]

/-- C3: a superseded (stale-token) pipeline invocation terminates silently at
every continuation point.  Whether resumed by its pending synthesis fetch
(the token re-check guards the decode and play-start path that follows in the
same atomic continuation) or by its source's `onended` signal (the loop's
next token check fires, and the token-guarded `finally` reset is skipped),
the only state change is that the suspended task disappears: play state,
active sources, started sources and the fetch log are untouched, so a
superseded request never mutates shared playback state, issues no further
fetch, and never produces audible output after the newer request starts. -/
theorem stale_continuation_silent (s : Sys) (h : Inv s) (t : PipeTask)
    (ht : t ∈ s.tasks) (hstale : s.activeReq ≠ some t.reqId) :
    (∀ audio, t.phase = .awaitFetch →
        step s (.fetchResolve t.reqId audio)
          = { s with tasks := s.tasks.filter (fun u => u != t) }) ∧
    (∀ x, t.phase = .awaitEnded x →
        step s (.srcEnded x)
          = { s with tasks := s.tasks.filter (fun u => u != t) }) := by
  constructor
  · intro audio hph
    show fetchResolveStep s t.reqId audio = _
    unfold fetchResolveStep
    have hfind : s.tasks.find?
        (fun u => u.reqId == t.reqId && u.phase == PipePhase.awaitFetch) = some t := by
      apply find?_unique_mem _ ht (by simp [hph])
      intro u hu hpu
      rw [Bool.and_eq_true, beq_iff_eq, beq_iff_eq] at hpu
      exact pairwise_reqId_unique h.reqNodup u hu t ht hpu.1
    rw [hfind]
    show fetchCont { s with tasks := s.tasks.filter (fun u => u != t) } t audio = _
    rw [fetchCont_stale]
    exact hstale
  · intro x hph
    show srcEndedStep s x = _
    unfold srcEndedStep
    have hxnot : x ∉ s.activeSrcs := by
      intro hxin
      obtain ⟨w, hw, hwp, hwa⟩ := h.srcOwner x hxin
      have hwt : w = t := pairwise_src_unique h.srcNodup w hw t ht x hwp hph
      rw [hwt] at hwa
      exact hstale hwa
    have hfilter : s.activeSrcs.filter (fun a => a ≠ x) = s.activeSrcs := by
      apply List.filter_eq_self.mpr
      intro b hb
      simp only [decide_eq_true_eq]
      intro hbeq
      rw [hbeq] at hb
      exact hxnot hb
    rw [hfilter]
    show srcEndedCont s x = _
    unfold srcEndedCont
    have hfind : s.tasks.find? (fun u => u.phase == PipePhase.awaitEnded x) = some t := by
      apply find?_unique_mem _ ht (by simp [hph])
      intro u hu hpu
      rw [beq_iff_eq] at hpu
      exact pairwise_src_unique h.srcNodup u hu t ht x hpu hph
    rw [hfind]
    show loopStep { s with tasks := s.tasks.filter (fun u => u != t) } t (t.idx + 1) = _
    unfold loopStep
    rw [loopGo_stale]
    exact hstale

/-- Witness for `stale_continuation_silent` at the concrete stale state. -/
theorem stale_continuation_silent_witness :
    (staleTask ∈ staleSample.tasks ∧ staleSample.activeReq ≠ some staleTask.reqId) ∧
    ((∀ audio, staleTask.phase = .awaitFetch →
        step staleSample (.fetchResolve staleTask.reqId audio)
          = { staleSample with
              tasks := staleSample.tasks.filter (fun u => u != staleTask) }) ∧
     (∀ x, staleTask.phase = .awaitEnded x →
        step staleSample (.srcEnded x)
          = { staleSample with
              tasks := staleSample.tasks.filter (fun u => u != staleTask) })) :=
  ⟨⟨by decide, by decide⟩,
    stale_continuation_silent staleSample inv_staleSample staleTask
      (by decide) (by decide)⟩

/-! Claim C2: toggle semantics. -/

/-- C2 counterexample: invoking play on a message that is still Loading (not
yet Playing) is not interpreted as a stop request.  After `invoke 0` the
state is Loading (`loadingMessageId` set, `isPlaying` false); a second
`invoke 0` in that state issues a second synthesis network call immediately
(two entries in the fetch log) and leaves two pipeline invocations in flight
— a duplicate pipeline — with the message still marked loading rather than
any stopped/idle state.  The toggle branch requires `isPlaying`. -/
theorem loading_invoke_not_stop :
    (run [.invoke 0 hiText]).loadingMsg = some 0 ∧
    (run [.invoke 0 hiText]).isPlaying = false ∧
    (run [.invoke 0 hiText, .invoke 0 hiText]).fetchLog = [(1, 0), (0, 0)] ∧
    (run [.invoke 0 hiText, .invoke 0 hiText]).tasks.length = 2 ∧
    (run [.invoke 0 hiText, .invoke 0 hiText]).loadingMsg = some 0 ∧
    (run [.invoke 0 hiText, .invoke 0 hiText]).playingMsg = some 0 :=
  ⟨by decide, by decide, by decide, by decide, by decide, by decide⟩

theorem inv_playingSample : Inv playingSample := by
  refine ⟨?_, ?_, ?_, ?_, ?_, ?_, rfl⟩ <;>
    simp [playingSample, Sys.init]

/-- C2 amended: invoking play on a message while it is Playing
(`playingMessageId === msgId && isPlaying`) is interpreted as a stop request:
the play state is cleared, the current scheduler handle is halted (no active
source remains), the token is invalidated (a fresh token is published), no
new pipeline task is created and no synthesis call is issued.  (While merely
Loading, the same invocation instead starts a duplicate pipeline — see the
counterexample; the superseded one is then cancelled via its stale token.) -/
theorem toggle_stop_when_playing (s : Sys) (h : Inv s) (m : Nat)
    (txt : List Char) (hp : s.playingMsg = some m) (hpl : s.isPlaying = true) :
    step s (.invoke m txt)
      = { s with
          nextReq := s.nextReq + 1
          activeReq := some s.nextReq
          activeSrcs := []
          playingMsg := none
          loadingMsg := none
          isPlaying := false } := by
  show handlePlayMessage s m txt = _
  simp only [handlePlayMessage]
  rw [if_pos ⟨hp, hpl⟩]
  rw [stopCurrent_nil s.activeSrcs s.currentSrc h.srcShape]

/-- Witness for `toggle_stop_when_playing` at the concrete playing state. -/
theorem toggle_stop_when_playing_witness :
    (playingSample.playingMsg = some 7 ∧ playingSample.isPlaying = true) ∧
    step playingSample (.invoke 7 hiText)
      = { playingSample with
          nextReq := playingSample.nextReq + 1
          activeReq := some playingSample.nextReq
          activeSrcs := []
          playingMsg := none
          loadingMsg := none
          isPlaying := false } :=
  ⟨⟨rfl, rfl⟩,
    toggle_stop_when_playing playingSample inv_playingSample 7 hiText rfl rfl⟩

/-! Claim C1: chunk synthesis failure. -/

set_option maxRecDepth 40000 in
/-- C1 counterexample: in the 3-chunk scenario where chunk 2's synthesis
fails (`chunkFailTrace`), chunk 3 IS fetched — the fetch log contains the
request for chunk index 2 — and the pipeline ends with the play state fully
reset (the idle state; no `Failed` state exists anywhere in the code): the
failure aborts nothing and is not surfaced. -/
theorem chunk_failure_no_abort :
    ((1, 2) ∈ (run (chunkFailTrace [0, 0] [0, 0])).fetchLog) ∧
    (run (chunkFailTrace [0, 0] [0, 0])).playingMsg = none ∧
    (run (chunkFailTrace [0, 0] [0, 0])).loadingMsg = none ∧
    (run (chunkFailTrace [0, 0] [0, 0])).isPlaying = false ∧
    (run (chunkFailTrace [0, 0] [0, 0])).tasks = [] :=
  ⟨by decide, by decide, by decide, by decide, by decide⟩

set_option maxRecDepth 40000 in
/-- C1 amended: when the synthesis call for a chunk fails or yields no audio,
the pipeline skips only that chunk's playback and continues with the
remaining chunks; it never enters a failed state and surfaces nothing — on
completion the `finally` block resets the status to idle.  In the 3-chunk
scenario (re-invoked while loading, so the loop is not cut short by the
stale-closure snapshot check of `App.tsx` line 242): chunk 1 plays fully,
chunk 2 is skipped, chunk 3 is fetched and played, and the pipeline ends
idle, for every choice of audio payloads; the superseded first invocation's
fetch is discarded on arrival. -/
theorem chunk_failure_skips_and_continues (a c : List Nat) :
    (run (chunkFailTrace a c)).fetchLog = [(1, 2), (1, 1), (1, 0), (0, 0)] ∧
    (run (chunkFailTrace a c)).playingMsg = none ∧
    (run (chunkFailTrace a c)).loadingMsg = none ∧
    (run (chunkFailTrace a c)).isPlaying = false ∧
    (run (chunkFailTrace a c)).activeSrcs = [] ∧
    (run (chunkFailTrace a c)).tasks = [] ∧
    (run (chunkFailTrace a c)).started = [(1, decodePCM c), (0, decodePCM a)] :=
  ⟨rfl, rfl, rfl, rfl, rfl, rfl, rfl⟩

end FCS
